import Mathlib

/-
Verification of the token-resolution core of rye's publish command
(src/rye/src/cli/publish.rs).

The command resolves an access token from one of three sources (an explicit
command-line token, a token stored in the credentials file, or an
interactively prompted token), optionally protecting it with passphrase-based
encryption (the age crate) before persisting it hex-encoded in the
credentials file, and reversing that protection on later use.

Modelling conventions:
- Bytes are natural numbers < 256 (`List Nat` for byte buffers).
- Rust's `String::as_bytes` / `String::from_utf8` pair is modelled by an
  injective fixed-width character encoding (`strToBytes` / `bytesToStr`,
  3 bytes per character) together with a proved partial-inverse property;
  the claims depend only on the encoding being injective, byte-valued and
  invertible, which the real UTF-8 encoding also is.
- The age crate is not part of this repository's sources; its encrypt and
  decrypt operations are modelled from the spec (see `age_encrypt`,
  `age_decrypt`).
- The hex crate is likewise external; `hexEncode` / `hexDecode` model its
  documented semantics (lowercase encoding; decoding fails on odd length or
  any non-hex-digit character, uppercase digits accepted).
- Interactive prompts (dialoguer passphrase prompt, stdin token prompt) are
  modelled by passing the entered text as explicit arguments.
- The credentials TOML document is an association list from repository name
  to a record (association list of string fields).  Reading the stored token
  back (publish.rs lines 84-88) goes through toml_edit's
  `Item::to_string()`, which renders the value with its quoting and
  whitespace decor; the rendering is modelled as the identity on the stored
  logical string value, with `escape_string` applied to it exactly as in the
  source (the quoting decor is what `escape_string` strips in the real
  program).
-/

namespace RyePublish

/-! ## String/byte conversion model -/

/-- Fixed-width (3 bytes per character) injective encoding of one character,
standing in for UTF-8 in `String::as_bytes`.  Every Unicode scalar value is
below 0x110000 < 2^24, so three bytes suffice. -/
def charToBytes (c : Char) : List Nat :=
  [c.toNat / 65536, c.toNat / 256 % 256, c.toNat % 256]

/-- Byte image of a string, standing in for Rust's `String::as_bytes`. -/
def strToBytes (s : String) : List Nat :=
  s.data.flatMap charToBytes

/-- Partial inverse of the character encoding: decodes three bytes at a time,
failing on truncated input or invalid scalar values.  Stands in for the
failure-checking direction of `String::from_utf8`. -/
def bytesToChars : List Nat → Option (List Char)
  | [] => some []
  | b2 :: b1 :: b0 :: rest =>
    let n := b2 * 65536 + b1 * 256 + b0
    if n.isValidChar then
      (bytesToChars rest).map (fun cs => Char.ofNat n :: cs)
    else
      none
  | _ => none

/-- Model of `String::from_utf8`: recover a string from its byte image. -/
def bytesToStr (bs : List Nat) : Option String :=
  (bytesToChars bs).map String.mk

/-! ## Hex codec (model of the hex crate as used at publish.rs lines 187, 218) -/

/-- Value of a single hex digit; `none` on a non-hex-digit character.
The hex crate accepts both lowercase and uppercase digits. -/
def hexVal (c : Char) : Option Nat :=
  if '0' ≤ c ∧ c ≤ '9' then some (c.toNat - 48)
  else if 'a' ≤ c ∧ c ≤ 'f' then some (c.toNat - 97 + 10)
  else if 'A' ≤ c ∧ c ≤ 'F' then some (c.toNat - 65 + 10)
  else none

/-- Lowercase hex image of one byte (two digits). -/
def hexEncodeByte (b : Nat) : List Char :=
  [Nat.digitChar (b / 16), Nat.digitChar (b % 16)]

/-- Model of `hex::encode`: lowercase hex string of a byte buffer. -/
def hexEncode (bs : List Nat) : String :=
  ⟨bs.flatMap hexEncodeByte⟩

/-- Model of `hex::decode` on the character list: fails on odd length or on
any non-hex-digit character. -/
def hexDecodeChars : List Char → Option (List Nat)
  | [] => some []
  | [_] => none
  | hi :: lo :: rest =>
    match hexVal hi, hexVal lo, hexDecodeChars rest with
    | some h, some l, some bs => some ((16 * h + l) :: bs)
    | _, _, _ => none

/-- Model of `hex::decode`. -/
def hexDecode (s : String) : Option (List Nat) :=
  hexDecodeChars s.data

/-! ## The small string helpers of publish.rs -/

/-- Trimming of leading and trailing whitespace characters from a character
list (model of Rust's `str::trim`). -/
def trimChars (l : List Char) : List Char :=
  ((l.dropWhile Char.isWhitespace).reverse.dropWhile Char.isWhitespace).reverse

/-- publish.rs lines 233-235: trim surrounding whitespace, then remove every
backslash and double-quote character (Rust's
`s.trim().replace(['\\', '"'], "")`). -/
def escape_string (s : String) : String :=
  ⟨(trimChars s.data).filter (fun c => !(c == '\\' || c == '"'))⟩

/-- publish.rs lines 225-231: left-pad an odd-length string with a single
leading "0"; even-length input passes through unchanged.  Rust's `s.len()`
is the UTF-8 byte length, modelled by `String.utf8ByteSize`. -/
def pad_hex (s : String) : String :=
  if s.utf8ByteSize % 2 == 1 then "0" ++ s else s

/-- publish.rs lines 203-209: read one line and trim surrounding whitespace;
the line the user enters is passed explicitly. -/
def get_trimmed_user_input (line : String) : String :=
  ⟨trimChars line.data⟩

/-- publish.rs lines 143-148: prompt for an access token (the entered line is
passed explicitly). -/
def prompt_for_token (line : String) : String :=
  get_trimmed_user_input line

/-! ## Passphrase cipher (modelled from the spec) -/

/-- Error taxonomy of the resolution pipeline (spec section 7).  In the
source all failures are anyhow errors produced by bail/`?`; they are kept
apart here so that propagation can be stated precisely. -/
inductive PubErr where
  /-- bail at publish.rs line 97: empty token at the interactive prompt. -/
  | missingToken
  /-- hex::decode failure at publish.rs line 187. -/
  | decodeError
  /-- the bytes are not a recognized encrypted container (Decryptor::new). -/
  | formatError
  /-- well-formed container but wrong passphrase / failed integrity check. -/
  | authError
  /-- decrypted bytes are not valid UTF-8 (publish.rs line 194). -/
  | utf8Error
  deriving DecidableEq, Repr

/-- Header marker of the symbolic encrypted container ("age" in bytes). -/
def AGE_MAGIC : List Nat := [97, 103, 101]

/-- Modelled from the spec: the age crate's passphrase encryption
(publish.rs lines 162-168) is not part of this repository's sources.  Per
spec section 4.2 it produces a self-contained container (header, key
material, ciphertext, integrity data) such that only decryption with the
matching passphrase recovers the plaintext.  The symbolic container records
the passphrase bytes (unary-length-delimited) and the plaintext bytes after
a header; it is injective, parseable, strictly longer than the plaintext,
and all its bytes are < 256. -/
def age_encrypt (plain : List Nat) (phrase : String) : List Nat :=
  let pb := strToBytes phrase
  AGE_MAGIC ++ (List.replicate pb.length 1 ++ (0 :: (pb ++ plain)))

/-- Reads a unary length marker: a run of 1-bytes terminated by a 0-byte. -/
def splitUnary : List Nat → Option (Nat × List Nat)
  | 0 :: rest => some (0, rest)
  | 1 :: rest => (splitUnary rest).map (fun p => (p.1 + 1, p.2))
  | _ => none

/-- Parse a symbolic container into (passphrase bytes, plaintext bytes);
`none` when the bytes are not a recognized container (model of
Decryptor::new failing). -/
def age_parse (container : List Nat) : Option (List Nat × List Nat) :=
  match container with
  | 97 :: 103 :: 101 :: rest =>
    (splitUnary rest).bind (fun p =>
      if p.1 ≤ p.2.length then some (p.2.take p.1, p.2.drop p.1) else none)
  | _ => none

/-- Modelled from the spec: age passphrase decryption (publish.rs lines
188-198).  Per spec section 4.2 it fails with a format error when the bytes
are not a recognized container and with an authentication error when the
passphrase does not match; on success it returns exactly the encrypted
plaintext. -/
def age_decrypt (container : List Nat) (phrase : String) : Except PubErr (List Nat) :=
  match age_parse container with
  | none => .error .formatError
  | some (pb, plain) =>
    if pb = strToBytes phrase then .ok plain else .error .authError

/-! ## The three helper functions of the resolver -/

/-- publish.rs lines 150-172: with an empty passphrase the token's plain
bytes are returned unchanged; with a non-empty passphrase the token bytes
are encrypted.  The passphrase the user enters at the dialoguer prompt is
passed explicitly. -/
def prompt_maybe_encrypt (secret : String) (phrase : String) : List Nat :=
  if phrase = "" then strToBytes secret
  else age_encrypt (strToBytes secret) phrase

/-- publish.rs lines 216-223: if the new bytes differ from the original
secret's bytes they are assumed encrypted and are hex-encoded; otherwise the
original string is returned unchanged. -/
def maybe_encode (original_secret : String) (new_secret : List Nat) : String :=
  if strToBytes original_secret ≠ new_secret then hexEncode new_secret
  else original_secret

/-- publish.rs lines 174-201: with an empty passphrase the stored secret is
returned verbatim; with a non-empty passphrase the stored string is
hex-decoded after odd-length repair, the bytes are parsed and decrypted, and
the decrypted bytes are re-read as UTF-8 text.  Each failure is propagated
(the source propagates all of them with ?/bail). -/
def prompt_maybe_decrypt (secret : String) (phrase : String) : Except PubErr String :=
  if phrase = "" then .ok secret
  else
    match hexDecode (pad_hex secret) with
    | none => .error .decodeError
    | some bytes =>
      match age_decrypt bytes phrase with
      | .error e => .error e
      | .ok decrypted =>
        match bytesToStr decrypted with
        | none => .error .utf8Error
        | some token => .ok token

/-! ## Credential store model -/

/-- One repository's record: an ordered field list (toml_edit table). -/
abbrev Record := List (String × String)

/-- The credentials document: an ordered map from repository name to its
record (the TOML document at ~/.rye/credentials). -/
abbrev Credentials := List (String × Record)

/-- Field lookup in a record (toml_edit's `Table::get`). -/
def recGet (r : Record) (key : String) : Option String :=
  (r.find? (fun f => f.1 == key)).map (fun f => f.2)

/-- Field update in a record: overwrite in place, or append when absent
(toml_edit's index assignment). -/
def recSet : Record → String → String → Record
  | [], key, v => [(key, v)]
  | f :: rest, key, v =>
    if f.1 == key then (key, v) :: rest else f :: recSet rest key v

/-- Repository lookup in the credentials document (`DocumentMut::get`). -/
def credGet (c : Credentials) (repo : String) : Option Record :=
  (c.find? (fun e => e.1 == repo)).map (fun e => e.2)

/-- publish.rs lines 72-74: `credentials.entry(repository).or_insert(empty
table)` — insert an empty record when the repository has none. -/
def entryOrInsert (c : Credentials) (repo : String) : Credentials :=
  if (credGet c repo).isSome then c else c ++ [(repo, [])]

/-- publish.rs lines 80 and 102: `credentials[repository]["token"] = value`. -/
def setToken : Credentials → String → String → Credentials
  | [], repo, v => [(repo, [("token", v)])]
  | e :: rest, repo, v =>
    if e.1 == repo then (e.1, recSet e.2 "token" v) :: rest
    else e :: setToken rest repo v

/-- publish.rs lines 84-88: the stored token of a repository, rendered to a
string and canonicalized with `escape_string` (the toml_edit rendering is
modelled as the identity on the stored logical string, see the header
comment). -/
def storedTokenOf (c : Credentials) (repo : String) : Option String :=
  ((credGet c repo).bind (fun table => recGet table "token")).map escape_string

/-- The token field a repository's record holds on disk. -/
def tokenField (c : Credentials) (repo : String) : Option String :=
  (credGet c repo).bind (fun table => recGet table "token")

/-! ## The resolver -/

instance : DecidableEq (Except PubErr String) := fun a b =>
  match a, b with
  | .ok x, .ok y =>
    if h : x = y then isTrue (by rw [h]) else isFalse (by intro hc; cases hc; exact h rfl)
  | .error x, .error y =>
    if h : x = y then isTrue (by rw [h]) else isFalse (by intro hc; cases hc; exact h rfl)
  | .ok _, .error _ => isFalse (by intro hc; cases hc)
  | .error _, .ok _ => isFalse (by intro hc; cases hc)

/-- Result of one run of the token-resolution core of `execute`
(publish.rs lines 71-106): the resolved token (or the propagated error),
the credentials document as persisted on disk afterwards, and whether
`write_credentials` was called.  On paths that do not write, the disk still
holds the loaded store (the in-memory `entry.or_insert` of lines 72-74 is
only persisted by a write). -/
structure Outcome where
  result : Except PubErr String
  disk : Credentials
  wrote : Bool
  deriving DecidableEq

/-- The token-resolution core of `execute` (publish.rs lines 71-106):
evaluate the three sources in order ExplicitToken, StoredToken,
PromptForToken.  `phrase` is the passphrase the user enters at whichever
dialoguer prompt runs; `line` is the line entered at the access-token
prompt of the third branch. -/
def resolveToken (explicitToken : Option String) (repository : String)
    (store : Credentials) (phrase : String) (line : String) : Outcome :=
  let credentials := entryOrInsert store repository
  match explicitToken with
  | some token =>
    let maybe_encrypted := prompt_maybe_encrypt token phrase
    let maybe_encoded := maybe_encode token maybe_encrypted
    { result := .ok token
      disk := setToken credentials repository maybe_encoded
      wrote := true }
  | none =>
    match storedTokenOf credentials repository with
    | some token =>
      { result := prompt_maybe_decrypt token phrase
        disk := store
        wrote := false }
    | none =>
      let token := prompt_for_token line
      if token = "" then
        { result := .error .missingToken, disk := store, wrote := false }
      else
        let maybe_encrypted := prompt_maybe_encrypt token phrase
        let maybe_encoded := maybe_encode token maybe_encrypted
        { result := .ok token
          disk := setToken credentials repository maybe_encoded
          wrote := true }

/-! ## Character and hex-codec lemmas -/

theorem char_toNat_lt (c : Char) : c.toNat < 1114112 := by
  have e : c.toNat = c.val.toNat := rfl
  rcases c.valid with h | h
  · omega
  · omega

theorem char_isValidChar_toNat (c : Char) : Nat.isValidChar c.toNat := c.valid

theorem utf8Size_eq_one (c : Char) (h : c.toNat ≤ 102) : c.utf8Size = 1 := by
  unfold Char.utf8Size
  rw [if_pos]
  rw [UInt32.le_def, BitVec.le_def]
  exact Nat.le_trans h (by decide)

theorem utf8Go_eq_length :
    ∀ l : List Char, (∀ c ∈ l, c.utf8Size = 1) → String.utf8ByteSize.go l = l.length
  | [], _ => rfl
  | c :: cs, h => by
    have hc : c.utf8Size = 1 := h c (by simp)
    have ih := utf8Go_eq_length cs (fun x hx => h x (by simp [hx]))
    show String.utf8ByteSize.go cs + c.utf8Size = cs.length + 1
    rw [hc, ih]

theorem digitChar_facts (n : Nat) (h : n < 16) :
    hexVal (Nat.digitChar n) = some n ∧ (Nat.digitChar n).toNat ≤ 102 ∧
    (Nat.digitChar n).isWhitespace = false ∧
    Nat.digitChar n ≠ '\\' ∧ Nat.digitChar n ≠ '"' := by
  interval_cases n <;> decide

theorem hexVal_isSome_toNat_le (c : Char) (h : (hexVal c).isSome) : c.toNat ≤ 102 := by
  unfold hexVal at h
  split_ifs at h with h1 h2 h3
  · exact Nat.le_trans h1.2 (by decide)
  · exact h2.2
  · exact Nat.le_trans h3.2 (by decide)
  · simp at h

theorem hexDecodeChars_encode :
    ∀ bs : List Nat, (∀ b ∈ bs, b < 256) →
      hexDecodeChars (bs.flatMap hexEncodeByte) = some bs
  | [], _ => rfl
  | b :: rest, h => by
    have hb : b < 256 := h b (by simp)
    have ih := hexDecodeChars_encode rest (fun x hx => h x (by simp [hx]))
    have h1 : b / 16 < 16 := by omega
    have h2 : b % 16 < 16 := by omega
    have e1 := (digitChar_facts _ h1).1
    have e2 := (digitChar_facts _ h2).1
    have eb : 16 * (b / 16) + b % 16 = b := by omega
    have hsplit : (b :: rest).flatMap hexEncodeByte =
        (b / 16).digitChar :: (b % 16).digitChar :: rest.flatMap hexEncodeByte := by
      simp [List.flatMap_cons, hexEncodeByte]
    rw [hsplit]
    simp only [hexDecodeChars]
    rw [e1, e2, ih]
    show some ((16 * (b / 16) + b % 16) :: rest) = some (b :: rest)
    rw [eb]

theorem hexDecode_encode (bs : List Nat) (h : ∀ b ∈ bs, b < 256) :
    hexDecode (hexEncode bs) = some bs :=
  hexDecodeChars_encode bs h

theorem mem_hexEncode (bs : List Nat) (h : ∀ b ∈ bs, b < 256) (c : Char)
    (hc : c ∈ (hexEncode bs).data) : ∃ n, n < 16 ∧ c = Nat.digitChar n := by
  simp only [hexEncode, List.mem_flatMap] at hc
  obtain ⟨b, hb, hcb⟩ := hc
  have hb' : b < 256 := h b hb
  simp only [hexEncodeByte, List.mem_cons, List.mem_singleton] at hcb
  rcases hcb with h' | h' | h'
  · exact ⟨b / 16, by omega, h'⟩
  · exact ⟨b % 16, by omega, h'⟩
  · simp at h'

theorem hexEncode_data_length : ∀ bs : List Nat, (hexEncode bs).data.length = 2 * bs.length
  | [] => rfl
  | b :: rest => by
    have ih := hexEncode_data_length rest
    simp only [hexEncode, List.flatMap_cons, hexEncodeByte, List.length_append,
      List.length_cons, List.length_nil] at *
    omega

theorem hexEncode_utf8ByteSize (bs : List Nat) (h : ∀ b ∈ bs, b < 256) :
    (hexEncode bs).utf8ByteSize = 2 * bs.length := by
  show String.utf8ByteSize.go (hexEncode bs).data = 2 * bs.length
  rw [utf8Go_eq_length, hexEncode_data_length]
  intro c hc
  obtain ⟨n, hn, rfl⟩ := mem_hexEncode bs h c hc
  exact utf8Size_eq_one _ (digitChar_facts n hn).2.1

theorem pad_hex_even (s : String) (h : s.utf8ByteSize % 2 = 0) : pad_hex s = s := by
  simp [pad_hex, h]

theorem pad_hex_hexEncode (bs : List Nat) (h : ∀ b ∈ bs, b < 256) :
    pad_hex (hexEncode bs) = hexEncode bs := by
  apply pad_hex_even
  rw [hexEncode_utf8ByteSize bs h]
  omega

/-! ## Canonicalization lemmas -/

theorem dropWhile_of_forall_false {α : Type} (p : α → Bool) :
    ∀ l : List α, (∀ c ∈ l, p c = false) → l.dropWhile p = l
  | [], _ => rfl
  | a :: l, h => by
    simp [List.dropWhile_cons, h a (by simp)]

theorem trimChars_of_forall (l : List Char) (h : ∀ c ∈ l, c.isWhitespace = false) :
    trimChars l = l := by
  unfold trimChars
  rw [dropWhile_of_forall_false _ _ h, dropWhile_of_forall_false, List.reverse_reverse]
  intro c hc
  exact h c (by simpa using hc)

theorem escape_string_of_forall (s : String)
    (h : ∀ c ∈ s.data, c.isWhitespace = false ∧ c ≠ '\\' ∧ c ≠ '"') :
    escape_string s = s := by
  unfold escape_string
  rw [trimChars_of_forall _ (fun c hc => (h c hc).1)]
  have hf : s.data.filter (fun c => !(c == '\\' || c == '"')) = s.data := by
    apply List.filter_eq_self.mpr
    intro c hc
    have h2 := (h c hc).2
    simp [h2.1, h2.2]
  rw [hf]

theorem escape_string_hexEncode (bs : List Nat) (h : ∀ b ∈ bs, b < 256) :
    escape_string (hexEncode bs) = hexEncode bs := by
  apply escape_string_of_forall
  intro c hc
  obtain ⟨n, hn, rfl⟩ := mem_hexEncode bs h c hc
  have hf := digitChar_facts n hn
  exact ⟨hf.2.2.1, hf.2.2.2.1, hf.2.2.2.2⟩

/-! ## Byte-encoding lemmas -/

theorem strToBytes_lt (s : String) : ∀ b ∈ strToBytes s, b < 256 := by
  intro b hb
  simp only [strToBytes, List.mem_flatMap] at hb
  obtain ⟨c, _, hcb⟩ := hb
  have hc := char_toNat_lt c
  simp only [charToBytes, List.mem_cons, List.mem_singleton] at hcb
  rcases hcb with h | h | h | h
  · omega
  · omega
  · omega
  · simp at h

theorem bytesToChars_flatMap : ∀ l : List Char, bytesToChars (l.flatMap charToBytes) = some l
  | [] => rfl
  | c :: cs => by
    have ih := bytesToChars_flatMap cs
    have hn : c.toNat / 65536 * 65536 + c.toNat / 256 % 256 * 256 + c.toNat % 256 = c.toNat := by
      omega
    have hsplit : (c :: cs).flatMap charToBytes =
        c.toNat / 65536 :: c.toNat / 256 % 256 :: c.toNat % 256 :: cs.flatMap charToBytes := by
      simp [List.flatMap_cons, charToBytes]
    rw [hsplit]
    simp only [bytesToChars, hn]
    rw [if_pos (char_isValidChar_toNat c), ih]
    simp [Char.ofNat_toNat]

theorem bytesToStr_strToBytes (s : String) : bytesToStr (strToBytes s) = some s := by
  unfold bytesToStr strToBytes
  rw [bytesToChars_flatMap]
  cases s
  rfl

/-! ## Cipher lemmas -/

theorem splitUnary_replicate :
    ∀ (n : Nat) (rest : List Nat), splitUnary (List.replicate n 1 ++ (0 :: rest)) = some (n, rest)
  | 0, rest => rfl
  | n + 1, rest => by
    have ih := splitUnary_replicate n rest
    rw [List.replicate_succ, List.cons_append]
    simp only [splitUnary]
    rw [ih]
    rfl

theorem age_parse_encrypt (plain : List Nat) (phrase : String) :
    age_parse (age_encrypt plain phrase) = some (strToBytes phrase, plain) := by
  unfold age_encrypt AGE_MAGIC
  show age_parse (97 :: 103 :: 101 :: _) = _
  simp only [age_parse, List.append_eq, List.nil_append]
  rw [splitUnary_replicate]
  have hle : (strToBytes phrase).length ≤ (strToBytes phrase ++ plain).length := by
    simp
  simp [hle, List.take_left, List.drop_left]

theorem age_decrypt_encrypt (plain : List Nat) (phrase : String) :
    age_decrypt (age_encrypt plain phrase) phrase = .ok plain := by
  simp [age_decrypt, age_parse_encrypt]

theorem age_encrypt_lt (plain : List Nat) (phrase : String) (h : ∀ b ∈ plain, b < 256) :
    ∀ b ∈ age_encrypt plain phrase, b < 256 := by
  intro b hb
  have hpb := strToBytes_lt phrase
  simp only [age_encrypt, AGE_MAGIC, List.mem_append, List.mem_cons, List.mem_replicate,
    List.not_mem_nil, or_false] at hb
  rcases hb with (rfl | rfl | rfl) | ⟨-, rfl⟩ | rfl | hb | hb
  · omega
  · omega
  · omega
  · omega
  · omega
  · exact hpb b hb
  · exact h b hb

theorem age_encrypt_ne (plain : List Nat) (phrase : String) :
    age_encrypt plain phrase ≠ plain := by
  intro h
  have hlen := congrArg List.length h
  simp [age_encrypt, AGE_MAGIC] at hlen
  omega

/-! ## Write/read pipeline lemmas -/

theorem maybe_encode_plain (t : String) : maybe_encode t (prompt_maybe_encrypt t "") = t := by
  simp [prompt_maybe_encrypt, maybe_encode]

theorem maybe_encode_encrypt (t phrase : String) (hp : phrase ≠ "") :
    maybe_encode t (prompt_maybe_encrypt t phrase) =
      hexEncode (age_encrypt (strToBytes t) phrase) := by
  unfold prompt_maybe_encrypt maybe_encode
  rw [if_neg hp, if_pos (Ne.symm (age_encrypt_ne (strToBytes t) phrase))]

theorem prompt_maybe_decrypt_empty (s : String) : prompt_maybe_decrypt s "" = .ok s := rfl

theorem decrypt_of_encode_roundtrip (t phrase : String) (hp : phrase ≠ "") :
    prompt_maybe_decrypt (escape_string (hexEncode (age_encrypt (strToBytes t) phrase))) phrase =
      .ok t := by
  have hbytes : ∀ b ∈ age_encrypt (strToBytes t) phrase, b < 256 :=
    age_encrypt_lt _ _ (strToBytes_lt t)
  rw [escape_string_hexEncode _ hbytes]
  unfold prompt_maybe_decrypt
  rw [if_neg hp, pad_hex_hexEncode _ hbytes, hexDecode_encode _ hbytes]
  simp [age_decrypt_encrypt, bytesToStr_strToBytes]

/-! ## Store lemmas -/

theorem recGet_recSet_self : ∀ (r : Record) (k v : String), recGet (recSet r k v) k = some v
  | [], k, v => by simp [recSet, recGet, List.find?]
  | f :: rest, k, v => by
    by_cases h : f.1 = k
    · simp [recSet, recGet, h, List.find?]
    · have ih := recGet_recSet_self rest k v
      simp only [recSet, beq_iff_eq, h, if_false]
      simpa [recGet, List.find?_cons, h] using ih

theorem recGet_recSet_other (k' : String) :
    ∀ (r : Record) (k v : String), k' ≠ k → recGet (recSet r k v) k' = recGet r k'
  | [], k, v, h => by
    simp [recSet, recGet, List.find?, show (k == k') = false from beq_eq_false_iff_ne.mpr (Ne.symm h)]
  | f :: rest, k, v, h => by
    by_cases hf : f.1 = k
    · simp [recSet, recGet, hf, List.find?_cons, h, Ne.symm h]
    · have ih := recGet_recSet_other k' rest k v h
      simp only [recSet, beq_iff_eq, hf, if_false]
      by_cases hf' : f.1 = k'
      · simp [recGet, List.find?_cons, hf']
      · simpa [recGet, List.find?_cons, hf'] using ih

theorem credGet_setToken_self :
    ∀ (c : Credentials) (repo v : String),
      credGet (setToken c repo v) repo = some (recSet ((credGet c repo).getD []) "token" v)
  | [], repo, v => by simp [setToken, credGet, List.find?, recSet]
  | e :: rest, repo, v => by
    by_cases h : e.1 = repo
    · simp [setToken, credGet, h, List.find?_cons]
    · have ih := credGet_setToken_self rest repo v
      simp only [setToken, beq_iff_eq, h, if_false]
      simpa [credGet, List.find?_cons, h] using ih

theorem credGet_setToken_other (r' : String) :
    ∀ (c : Credentials) (repo v : String), r' ≠ repo →
      credGet (setToken c repo v) r' = credGet c r'
  | [], repo, v, h => by
    simp [setToken, credGet, List.find?,
      show (repo == r') = false from beq_eq_false_iff_ne.mpr (Ne.symm h)]
  | e :: rest, repo, v, h => by
    by_cases he : e.1 = repo
    · simp [setToken, credGet, he, List.find?_cons, h, Ne.symm h]
    · have ih := credGet_setToken_other r' rest repo v h
      simp only [setToken, beq_iff_eq, he, if_false]
      by_cases he' : e.1 = r'
      · simp [credGet, List.find?_cons, he']
      · simpa [credGet, List.find?_cons, he'] using ih

theorem credGet_append_single (c : Credentials) (repo : String) (r : Record)
    (h : credGet c repo = none) : credGet (c ++ [(repo, r)]) repo = some r := by
  induction c with
  | nil => simp [credGet, List.find?]
  | cons e rest ih =>
    by_cases he : e.1 = repo
    · simp [credGet, List.find?_cons, he] at h
    · have h' : credGet rest repo = none := by
        simpa [credGet, List.find?_cons, he] using h
      simpa [credGet, List.find?_cons, he] using ih h'

theorem credGet_append_single_other (c : Credentials) (repo r' : String) (r : Record)
    (h : r' ≠ repo) : credGet (c ++ [(repo, r)]) r' = credGet c r' := by
  induction c with
  | nil =>
    simp [credGet, List.find?,
      show (repo == r') = false from beq_eq_false_iff_ne.mpr (Ne.symm h)]
  | cons e rest ih =>
    by_cases he : e.1 = r'
    · simp [credGet, List.find?_cons, he]
    · simpa [credGet, List.find?_cons, he] using ih

theorem credGet_entryOrInsert_self (c : Credentials) (repo : String) :
    credGet (entryOrInsert c repo) repo = some ((credGet c repo).getD []) := by
  unfold entryOrInsert
  cases h : credGet c repo with
  | some r => simp [h]
  | none => simp [h, credGet_append_single c repo [] h]

theorem credGet_entryOrInsert_other (c : Credentials) (repo r' : String) (h : r' ≠ repo) :
    credGet (entryOrInsert c repo) r' = credGet c r' := by
  unfold entryOrInsert
  cases hc : credGet c repo with
  | some r => simp
  | none => simp [credGet_append_single_other c repo r' [] h]

theorem storedTokenOf_entryOrInsert (c : Credentials) (repo : String) :
    storedTokenOf (entryOrInsert c repo) repo = storedTokenOf c repo := by
  unfold storedTokenOf
  rw [credGet_entryOrInsert_self]
  cases h : credGet c repo with
  | some r => simp
  | none => simp [recGet, List.find?]

theorem tokenField_after_write (store : Credentials) (repo v : String) :
    tokenField (setToken (entryOrInsert store repo) repo v) repo = some v := by
  unfold tokenField
  rw [credGet_setToken_self]
  exact recGet_recSet_self _ _ _

theorem recGet_getD_bind (o : Option Record) (k : String) :
    recGet (o.getD []) k = o.bind (fun r => recGet r k) := by
  cases o with
  | some r => rfl
  | none => simp [recGet, List.find?]

/-! ## Resolver branch lemmas -/

theorem storedTokenOf_eq_map (c : Credentials) (repo : String) :
    storedTokenOf c repo = (tokenField c repo).map escape_string := rfl

theorem resolveToken_explicit (t repo phrase line : String) (store : Credentials) :
    resolveToken (some t) repo store phrase line =
      { result := .ok t
        disk := setToken (entryOrInsert store repo) repo
          (maybe_encode t (prompt_maybe_encrypt t phrase))
        wrote := true } := rfl

theorem resolveToken_stored (repo phrase line s : String) (store : Credentials)
    (h : storedTokenOf store repo = some s) :
    resolveToken none repo store phrase line =
      { result := prompt_maybe_decrypt s phrase, disk := store, wrote := false } := by
  unfold resolveToken
  simp only [storedTokenOf_entryOrInsert, h]

theorem resolveToken_prompt_empty (repo phrase line : String) (store : Credentials)
    (h : storedTokenOf store repo = none) (he : prompt_for_token line = "") :
    resolveToken none repo store phrase line =
      { result := .error .missingToken, disk := store, wrote := false } := by
  unfold resolveToken
  simp only [storedTokenOf_entryOrInsert, h, he]
  simp

theorem resolveToken_prompt (repo phrase line : String) (store : Credentials)
    (h : storedTokenOf store repo = none) (he : prompt_for_token line ≠ "") :
    resolveToken none repo store phrase line =
      { result := .ok (prompt_for_token line)
        disk := setToken (entryOrInsert store repo) repo
          (maybe_encode (prompt_for_token line)
            (prompt_maybe_encrypt (prompt_for_token line) phrase))
        wrote := true } := by
  unfold resolveToken
  simp only [storedTokenOf_entryOrInsert, h]
  simp [he]

theorem write_disk_frame (store : Credentials) (repo v : String) :
    (∀ name : String, name ≠ repo →
      credGet (setToken (entryOrInsert store repo) repo v) name = credGet store name) ∧
    (∀ k : String, k ≠ "token" →
      (credGet (setToken (entryOrInsert store repo) repo v) repo).bind (fun r => recGet r k) =
        (credGet store repo).bind (fun r => recGet r k)) := by
  constructor
  · intro name h
    rw [credGet_setToken_other name _ _ _ h, credGet_entryOrInsert_other _ _ _ h]
  · intro k hk
    rw [credGet_setToken_self]
    show recGet (recSet ((credGet (entryOrInsert store repo) repo).getD []) "token" v) k = _
    rw [recGet_recSet_other k _ _ _ hk, credGet_entryOrInsert_self]
    show recGet ((credGet store repo).getD []) k = _
    rw [recGet_getD_bind]

/-! ## Hex-decoding failure characterization -/

theorem hexDecodeChars_none_of_mem :
    ∀ (l : List Char) (c : Char), c ∈ l → hexVal c = none → hexDecodeChars l = none
  | [], c, hc, _ => absurd hc (List.not_mem_nil c)
  | [_], _, _, _ => rfl
  | d1 :: d2 :: rest, c, hc, hv => by
    simp only [hexDecodeChars]
    rcases List.mem_cons.mp hc with rfl | hc'
    · rw [hv]
    · rcases List.mem_cons.mp hc' with rfl | hc''
      · rw [hv]
        cases hexVal d1 <;> rfl
      · rw [hexDecodeChars_none_of_mem rest c hc'' hv]
        cases hexVal d1 <;> cases hexVal d2 <;> rfl

theorem hexDecodeChars_isSome :
    ∀ l : List Char, (∀ c ∈ l, (hexVal c).isSome) → l.length % 2 = 0 →
      (hexDecodeChars l).isSome
  | [], _, _ => by simp [hexDecodeChars]
  | [c], _, h2 => by simp at h2
  | c1 :: c2 :: rest, h1, h2 => by
    have ih := hexDecodeChars_isSome rest (fun c hc => h1 c (by simp [hc]))
      (by simp only [List.length_cons] at h2; omega)
    obtain ⟨v1, hv1⟩ := Option.isSome_iff_exists.mp (h1 c1 (by simp))
    obtain ⟨v2, hv2⟩ := Option.isSome_iff_exists.mp (h1 c2 (by simp))
    obtain ⟨bs, hbs⟩ := Option.isSome_iff_exists.mp ih
    simp [hexDecodeChars, hv1, hv2, hbs]

theorem utf8ByteSize_eq_length_of_hex (s : String) (h : ∀ c ∈ s.data, (hexVal c).isSome) :
    s.utf8ByteSize = s.data.length := by
  show String.utf8ByteSize.go s.data = _
  exact utf8Go_eq_length _ (fun c hc => utf8Size_eq_one c (hexVal_isSome_toNat_le c (h c hc)))

/-! ## Claim theorems -/

/-- Claim C1: the resolver evaluates its three sources in the fixed order
ExplicitToken, StoredToken, PromptForToken, first match wins with no
fallthrough: with an explicit token the result is that explicit token (never
the stored one) and the store is written; the stored branch is taken exactly
when no explicit token is given and the store has a token for the repository
name, in which case the result comes from decrypting the stored value; the
prompt branch runs only when neither holds. -/
theorem resolver_precedence_first_match :
    (∀ (t repo phrase line : String) (store : Credentials),
      (resolveToken (some t) repo store phrase line).result = .ok t ∧
      (resolveToken (some t) repo store phrase line).wrote = true) ∧
    (∀ (repo phrase line s : String) (store : Credentials),
      storedTokenOf store repo = some s →
        (resolveToken none repo store phrase line).result = prompt_maybe_decrypt s phrase ∧
        (resolveToken none repo store phrase line).wrote = false) ∧
    (∀ (repo phrase line : String) (store : Credentials),
      storedTokenOf store repo = none →
        resolveToken none repo store phrase line =
          (if prompt_for_token line = "" then
            { result := .error .missingToken, disk := store, wrote := false }
          else
            { result := .ok (prompt_for_token line)
              disk := setToken (entryOrInsert store repo) repo
                (maybe_encode (prompt_for_token line)
                  (prompt_maybe_encrypt (prompt_for_token line) phrase))
              wrote := true })) := by
  refine ⟨fun t repo phrase line store => ?_,
    fun repo phrase line s store h => ?_,
    fun repo phrase line store h => ?_⟩
  · rw [resolveToken_explicit]
    exact ⟨rfl, rfl⟩
  · rw [resolveToken_stored repo phrase line s store h]
    exact ⟨rfl, rfl⟩
  · by_cases he : prompt_for_token line = ""
    · rw [resolveToken_prompt_empty repo phrase line store h he, if_pos he]
    · rw [resolveToken_prompt repo phrase line store h he, if_neg he]

/-- Witness for C1 at concrete inputs: explicit token wins over a stored one
and is returned; the stored branch result comes from the stored value; with
neither source the prompt branch rejects an empty entry. -/
theorem resolver_precedence_first_match_witness :
    (resolveToken (some "T") "pypi" [("pypi", [("token", "S")])] "" "").result = .ok "T" ∧
    (resolveToken none "pypi" [("pypi", [("token", "S")])] "" "").result =
      prompt_maybe_decrypt "S" "" ∧
    resolveToken none "pypi" [] "" "" =
      { result := .error .missingToken, disk := [], wrote := false } := by
  have h1 := (resolver_precedence_first_match.1 "T" "pypi" "" "" [("pypi", [("token", "S")])]).1
  have h2 := (resolver_precedence_first_match.2.1 "pypi" "" "" "S"
    [("pypi", [("token", "S")])] (by decide)).1
  have h3 := resolver_precedence_first_match.2.2 "pypi" "" "" [] (by decide)
  exact ⟨h1, h2, h3.trans (by decide)⟩

/-- Claim C2 counterexample: with an empty passphrase the stored string is
NOT always used verbatim as the resolved token.  With the stored token
containing a double quote, the resolver's canonicalization (publish.rs line
88, `escape_string`) removes it: the stored string is a-quote-b but the
resolved token is ab. -/
theorem empty_passphrase_read_not_verbatim_cex :
    tokenField [("pypi", [("token", "a\"b")])] "pypi" = some "a\"b" ∧
    (resolveToken none "pypi" [("pypi", [("token", "a\"b")])] "" "").result = .ok "ab" ∧
    ("ab" : String) ≠ "a\"b" := by
  decide

/-- Claim C2 (amended): for every token and empty passphrase the resolver
applies no encryption and no hex encoding in either direction: on the write
paths (explicit or prompted) the value persisted in the record's token field
equals the original plaintext token string exactly; on the read path no
decoding or decryption is applied — the stored string is used after the
resolver's canonicalization (trim surrounding whitespace, strip backslashes
and double quotes), hence verbatim whenever it contains no whitespace at the
ends and no backslash or double-quote character. -/
theorem empty_passphrase_plaintext_bypass :
    (∀ (t repo line : String) (store : Credentials),
      (resolveToken (some t) repo store "" line).result = .ok t ∧
      tokenField (resolveToken (some t) repo store "" line).disk repo = some t) ∧
    (∀ (repo line : String) (store : Credentials),
      storedTokenOf store repo = none → prompt_for_token line ≠ "" →
        (resolveToken none repo store "" line).result = .ok (prompt_for_token line) ∧
        tokenField (resolveToken none repo store "" line).disk repo =
          some (prompt_for_token line)) ∧
    (∀ s : String, prompt_maybe_decrypt s "" = .ok s) ∧
    (∀ (repo line s : String) (store : Credentials),
      tokenField store repo = some s →
        (resolveToken none repo store "" line).result = .ok (escape_string s) ∧
        ((∀ c ∈ s.data, c.isWhitespace = false ∧ c ≠ '\\' ∧ c ≠ '"') →
          (resolveToken none repo store "" line).result = .ok s)) := by
  refine ⟨fun t repo line store => ?_, fun repo line store h he => ?_,
    fun s => rfl, fun repo line s store h => ?_⟩
  · rw [resolveToken_explicit]
    refine ⟨rfl, ?_⟩
    show tokenField (setToken (entryOrInsert store repo) repo
      (maybe_encode t (prompt_maybe_encrypt t ""))) repo = some t
    rw [maybe_encode_plain]
    exact tokenField_after_write store repo t
  · rw [resolveToken_prompt repo "" line store h he]
    refine ⟨rfl, ?_⟩
    show tokenField (setToken (entryOrInsert store repo) repo
      (maybe_encode (prompt_for_token line)
        (prompt_maybe_encrypt (prompt_for_token line) ""))) repo = _
    rw [maybe_encode_plain]
    exact tokenField_after_write store repo _
  · have hst : storedTokenOf store repo = some (escape_string s) := by
      rw [storedTokenOf_eq_map, h]
      rfl
    rw [resolveToken_stored repo "" line (escape_string s) store hst]
    refine ⟨rfl, fun hc => ?_⟩
    rw [escape_string_of_forall s hc]
    exact prompt_maybe_decrypt_empty s

/-- Witness for C2 (amended) at the spec's own scenarios: explicit token
abc123 with empty passphrase is returned and persisted as-is; a stored value
616263 with empty passphrase resolves to the literal string 616263. -/
theorem empty_passphrase_plaintext_bypass_witness :
    (resolveToken (some "abc123") "pypi" [] "" "").result = .ok "abc123" ∧
    tokenField (resolveToken (some "abc123") "pypi" [] "" "").disk "pypi" = some "abc123" ∧
    (resolveToken none "pypi" [("pypi", [("token", "616263")])] "" "").result =
      .ok "616263" := by
  have h1 := empty_passphrase_plaintext_bypass.1 "abc123" "pypi" "" []
  have h4 := empty_passphrase_plaintext_bypass.2.2.2 "pypi" "" "616263"
    [("pypi", [("token", "616263")])] (by decide)
  exact ⟨h1.1, h1.2, h4.2 (by decide)⟩

/-- Claim C3: for every token T and non-empty passphrase P, writing T through
the explicit branch under P (encrypt, hex-encode, persist) and then resolving
from the store under the same P (canonicalize, hex-decode, decrypt) recovers
exactly T. -/
theorem encrypt_decrypt_roundtrip_via_store (t phrase repo line₁ line₂ : String)
    (store : Credentials) (hp : phrase ≠ "") :
    (resolveToken none repo (resolveToken (some t) repo store phrase line₁).disk
      phrase line₂).result = .ok t := by
  rw [resolveToken_explicit]
  show (resolveToken none repo
    (setToken (entryOrInsert store repo) repo (maybe_encode t (prompt_maybe_encrypt t phrase)))
    phrase line₂).result = .ok t
  rw [maybe_encode_encrypt t phrase hp]
  have hstored : storedTokenOf
      (setToken (entryOrInsert store repo) repo
        (hexEncode (age_encrypt (strToBytes t) phrase))) repo =
      some (escape_string (hexEncode (age_encrypt (strToBytes t) phrase))) := by
    rw [storedTokenOf_eq_map, tokenField_after_write]
    rfl
  rw [resolveToken_stored repo phrase line₂ _ _ hstored]
  exact decrypt_of_encode_roundtrip t phrase hp

/-- Witness for C3: the roundtrip at the concrete token tok and passphrase p. -/
theorem encrypt_decrypt_roundtrip_via_store_witness :
    ("p" : String) ≠ "" ∧
    (resolveToken none "pypi" (resolveToken (some "tok") "pypi" [] "p" "").disk
      "p" "").result = .ok "tok" :=
  ⟨by decide, encrypt_decrypt_roundtrip_via_store "tok" "p" "pypi" "" "" [] (by decide)⟩

/-- Claim C4: in the StoredToken branch no store write ever occurs (the disk
content stays the loaded store and write_credentials is not called), the
result is exactly the outcome of the decrypt pipeline on the stored value,
and every decryption failure (bad hex, unrecognized container, wrong
passphrase, bad UTF-8) is propagated to the caller — never converted into
using the encoded bytes as a token. -/
theorem stored_branch_no_write_error_propagation (repo phrase line s : String)
    (store : Credentials) (h : storedTokenOf store repo = some s) :
    (resolveToken none repo store phrase line).wrote = false ∧
    (resolveToken none repo store phrase line).disk = store ∧
    (resolveToken none repo store phrase line).result = prompt_maybe_decrypt s phrase ∧
    (∀ e : PubErr, prompt_maybe_decrypt s phrase = .error e →
      (resolveToken none repo store phrase line).result = .error e) := by
  rw [resolveToken_stored repo phrase line s store h]
  exact ⟨rfl, rfl, rfl, fun e he => he⟩

/-- Witness for C4: a stored value that is not valid hex, read with a
non-empty passphrase — the decode error is propagated and the store is
untouched. -/
theorem stored_branch_no_write_error_propagation_witness :
    (resolveToken none "pypi" [("pypi", [("token", "zz")])] "p" "").wrote = false ∧
    (resolveToken none "pypi" [("pypi", [("token", "zz")])] "p" "").disk =
      [("pypi", [("token", "zz")])] ∧
    (resolveToken none "pypi" [("pypi", [("token", "zz")])] "p" "").result =
      .error .decodeError := by
  have h := stored_branch_no_write_error_propagation "pypi" "p" "" "zz"
    [("pypi", [("token", "zz")])] (by decide)
  exact ⟨h.1, h.2.1, h.2.2.2 .decodeError (by decide)⟩

/-- Claim C5: on every store-writing path (ExplicitToken and PromptForToken)
the write sets exactly the token field of the repository's record: every
entry for another repository and every other field of that record is
unchanged between the loaded store and the saved store, and the token field
holds the encoded value. -/
theorem store_write_frame_condition :
    (∀ (t repo phrase line : String) (store : Credentials),
      (resolveToken (some t) repo store phrase line).wrote = true ∧
      (∀ name : String, name ≠ repo →
        credGet (resolveToken (some t) repo store phrase line).disk name =
          credGet store name) ∧
      (∀ k : String, k ≠ "token" →
        (credGet (resolveToken (some t) repo store phrase line).disk repo).bind
            (fun r => recGet r k) =
          (credGet store repo).bind (fun r => recGet r k)) ∧
      tokenField (resolveToken (some t) repo store phrase line).disk repo =
        some (maybe_encode t (prompt_maybe_encrypt t phrase))) ∧
    (∀ (repo phrase line : String) (store : Credentials),
      storedTokenOf store repo = none → prompt_for_token line ≠ "" →
      (resolveToken none repo store phrase line).wrote = true ∧
      (∀ name : String, name ≠ repo →
        credGet (resolveToken none repo store phrase line).disk name =
          credGet store name) ∧
      (∀ k : String, k ≠ "token" →
        (credGet (resolveToken none repo store phrase line).disk repo).bind
            (fun r => recGet r k) =
          (credGet store repo).bind (fun r => recGet r k)) ∧
      tokenField (resolveToken none repo store phrase line).disk repo =
        some (maybe_encode (prompt_for_token line)
          (prompt_maybe_encrypt (prompt_for_token line) phrase))) := by
  constructor
  · intro t repo phrase line store
    rw [resolveToken_explicit]
    have hf := write_disk_frame store repo (maybe_encode t (prompt_maybe_encrypt t phrase))
    exact ⟨rfl, hf.1, hf.2, tokenField_after_write store repo _⟩
  · intro repo phrase line store h he
    rw [resolveToken_prompt repo phrase line store h he]
    have hf := write_disk_frame store repo
      (maybe_encode (prompt_for_token line) (prompt_maybe_encrypt (prompt_for_token line) phrase))
    exact ⟨rfl, hf.1, hf.2, tokenField_after_write store repo _⟩

/-- Witness for C5: writing an explicit token for pypi into a store holding
an unrelated field on the pypi record and an unrelated repository leaves
both unchanged and sets the token field. -/
theorem store_write_frame_condition_witness :
    (resolveToken (some "T") "pypi"
      [("pypi", [("user", "u")]), ("other", [("token", "t")])] "" "").wrote = true ∧
    credGet (resolveToken (some "T") "pypi"
      [("pypi", [("user", "u")]), ("other", [("token", "t")])] "" "").disk "other" =
      credGet [("pypi", [("user", "u")]), ("other", [("token", "t")])] "other" ∧
    (credGet (resolveToken (some "T") "pypi"
      [("pypi", [("user", "u")]), ("other", [("token", "t")])] "" "").disk "pypi").bind
        (fun r => recGet r "user") =
      (credGet [("pypi", [("user", "u")]), ("other", [("token", "t")])] "pypi").bind
        (fun r => recGet r "user") ∧
    tokenField (resolveToken (some "T") "pypi"
      [("pypi", [("user", "u")]), ("other", [("token", "t")])] "" "").disk "pypi" =
      some (maybe_encode "T" (prompt_maybe_encrypt "T" "")) := by
  have h := store_write_frame_condition.1 "T" "pypi" "" ""
    [("pypi", [("user", "u")]), ("other", [("token", "t")])]
  exact ⟨h.1, h.2.1 "other" (by decide), h.2.2.1 "user" (by decide), h.2.2.2⟩

/-- Claim C6: every stored token string read from the credential store is
canonicalized — surrounding whitespace trimmed, then every backslash and
double-quote character removed — before it reaches the decrypt pipeline, so
any hex decoding operates on the canonicalized string. -/
theorem stored_token_canonicalized_before_decode (repo phrase line v : String)
    (store : Credentials) (h : tokenField store repo = some v) :
    (resolveToken none repo store phrase line).result =
      prompt_maybe_decrypt
        ⟨(((v.data.dropWhile Char.isWhitespace).reverse.dropWhile
            Char.isWhitespace).reverse).filter (fun c => !(c == '\\' || c == '"'))⟩
        phrase ∧
    (phrase ≠ "" → hexDecode (pad_hex (escape_string v)) = none →
      (resolveToken none repo store phrase line).result = .error .decodeError) := by
  have hst : storedTokenOf store repo = some (escape_string v) := by
    rw [storedTokenOf_eq_map, h]
    rfl
  rw [resolveToken_stored repo phrase line (escape_string v) store hst]
  constructor
  · rfl
  · intro hp hdec
    show prompt_maybe_decrypt (escape_string v) phrase = _
    unfold prompt_maybe_decrypt
    rw [if_neg hp, hdec]

/-- Witness for C6: a stored value with surrounding whitespace and quote
characters; after canonicalization the decode of the canonical form decides
the outcome. -/
theorem stored_token_canonicalized_before_decode_witness :
    (resolveToken none "pypi" [("pypi", [("token", " z\"z ")])] "x" "").result =
      prompt_maybe_decrypt
        ⟨(((" z\"z " : String).data.dropWhile Char.isWhitespace).reverse.dropWhile
            Char.isWhitespace).reverse.filter (fun c => !(c == '\\' || c == '"'))⟩ "x" ∧
    (resolveToken none "pypi" [("pypi", [("token", " z\"z ")])] "x" "").result =
      .error .decodeError := by
  have h := stored_token_canonicalized_before_decode "pypi" "x" "" " z\"z "
    [("pypi", [("token", " z\"z ")])] (by decide)
  exact ⟨h.1, h.2 (by decide) (by decide)⟩

/-- Claim C7: the odd-length repair function prepends a single "0" to a
string of odd (byte) length and passes strings of even length (the empty
string included) through unchanged. -/
theorem pad_hex_odd_even (s : String) :
    (s.utf8ByteSize % 2 = 1 → pad_hex s = "0" ++ s) ∧
    (s.utf8ByteSize % 2 = 0 → pad_hex s = s) := by
  constructor
  · intro h
    simp [pad_hex, h]
  · intro h
    simp [pad_hex, h]

/-- Witness for C7 on concrete strings of odd, even and zero length. -/
theorem pad_hex_odd_even_witness :
    pad_hex "abc" = "0" ++ "abc" ∧ pad_hex "ab" = "ab" ∧ pad_hex "" = "" :=
  ⟨(pad_hex_odd_even "abc").1 (by decide), (pad_hex_odd_even "ab").2 (by decide),
    (pad_hex_odd_even "").2 (by decide)⟩

/-- Claim C8: hex-decoding the lowercase hex encoding of any byte sequence
(the empty one included) yields exactly that sequence; encoding is a total
function; and the resolver's decoding step (hex decode after the odd-length
repair, publish.rs line 187) fails exactly on input containing a
non-hex-digit character. -/
theorem hex_roundtrip_and_decode_failure :
    (∀ bs : List Nat, (∀ b ∈ bs, b < 256) → hexDecode (hexEncode bs) = some bs) ∧
    (∀ s : String, hexDecode (pad_hex s) = none ↔ ∃ c ∈ s.data, hexVal c = none) := by
  refine ⟨hexDecode_encode, fun s => ⟨?_, ?_⟩⟩
  · intro hnone
    by_contra hno
    push_neg at hno
    have hall : ∀ c ∈ s.data, (hexVal c).isSome :=
      fun c hc => Option.ne_none_iff_isSome.mp (hno c hc)
    have hsize := utf8ByteSize_eq_length_of_hex s hall
    by_cases hpar : s.utf8ByteSize % 2 = 1
    · have hpad : pad_hex s = "0" ++ s := by simp [pad_hex, hpar]
      have hdata : (pad_hex s).data = '0' :: s.data := by
        rw [hpad, String.data_append]
        rfl
      have hs : (hexDecodeChars ('0' :: s.data)).isSome := by
        apply hexDecodeChars_isSome
        · intro c hc
          rcases List.mem_cons.mp hc with rfl | hc'
          · decide
          · exact hall c hc'
        · simp only [List.length_cons]
          omega
      rw [hexDecode, hdata] at hnone
      rw [hnone] at hs
      simp at hs
    · have hpar' : s.utf8ByteSize % 2 = 0 := by omega
      have hpad : pad_hex s = s := by simp [pad_hex, hpar']
      have hs : (hexDecodeChars s.data).isSome := by
        apply hexDecodeChars_isSome _ hall
        omega
      rw [hexDecode, hpad] at hnone
      rw [hnone] at hs
      simp at hs
  · rintro ⟨c, hc, hv⟩
    have hc' : c ∈ (pad_hex s).data := by
      unfold pad_hex
      by_cases hpar : s.utf8ByteSize % 2 == 1
      · simp only [hpar, if_true, String.data_append]
        exact List.mem_append.mpr (.inr hc)
      · simp only [hpar, if_false]
        exact hc
    exact hexDecodeChars_none_of_mem _ c hc' hv

/-- Witness for C8: the roundtrip at a concrete byte sequence (with the
bound discharged), at the empty sequence, and a concrete decode failure. -/
theorem hex_roundtrip_and_decode_failure_witness :
    hexDecode (hexEncode [0, 171, 255]) = some [0, 171, 255] ∧
    hexDecode (hexEncode []) = some [] ∧
    hexDecode (pad_hex "zz") = none :=
  ⟨hex_roundtrip_and_decode_failure.1 [0, 171, 255] (by decide),
    hex_roundtrip_and_decode_failure.1 [] (by decide),
    (hex_roundtrip_and_decode_failure.2 "zz").mpr ⟨'z', by decide, by decide⟩⟩

/-- Claim C9: in the PromptForToken branch (no explicit token, no stored
token), an interactively entered token that is empty after trimming makes
the resolver fail with the missing-input error and no store write occurs. -/
theorem prompt_branch_empty_token_error (repo phrase line : String) (store : Credentials)
    (h : storedTokenOf store repo = none) (he : get_trimmed_user_input line = "") :
    resolveToken none repo store phrase line =
      { result := .error .missingToken, disk := store, wrote := false } :=
  resolveToken_prompt_empty repo phrase line store h he

/-- Witness for C9: a line of pure whitespace trims to empty and is
rejected without writing the store. -/
theorem prompt_branch_empty_token_error_witness :
    resolveToken none "pypi" [] "x" "   " =
      { result := .error .missingToken, disk := [], wrote := false } :=
  prompt_branch_empty_token_error "pypi" "x" "   " [] (by decide) (by decide)

/-- Claim C10: the emptiness check applies only to the prompted path — an
explicitly supplied empty token is accepted without error, returned as the
resolved token, the store is written, and (encryption declined) the empty
string is persisted as the repository's token field value. -/
theorem explicit_empty_token_accepted :
    (∀ (repo phrase line : String) (store : Credentials),
      (resolveToken (some "") repo store phrase line).result = .ok "" ∧
      (resolveToken (some "") repo store phrase line).wrote = true) ∧
    (∀ (repo line : String) (store : Credentials),
      tokenField (resolveToken (some "") repo store "" line).disk repo = some "") := by
  constructor
  · intro repo phrase line store
    rw [resolveToken_explicit]
    exact ⟨rfl, rfl⟩
  · intro repo line store
    rw [resolveToken_explicit]
    show tokenField (setToken (entryOrInsert store repo) repo
      (maybe_encode "" (prompt_maybe_encrypt "" ""))) repo = some ""
    rw [maybe_encode_plain]
    exact tokenField_after_write store repo ""

end RyePublish
